import Mathlib

/-!
# NTHU-Scheduler-Plugin: `pkg/plugins/scheduler.go`

A shallow embedding of the `CustomScheduler` scheduling plugin
(`New`, `PreFilter`, `Score`, `NormalizeScore`) together with the
properties of its admission gate, its raw memory score and its min-max
score normalisation.

Conventions of the embedding.

* Go's `int64` is the subtype `GoInt64` of `Int` restricted to
  `[-2^63, 2^63)`; every arithmetic operator wraps modulo `2^64`
  (`wrap64`), division truncates towards zero and a zero divisor is a
  run-time panic (`none`).
* Calls into the host framework (the pod lister, the node snapshot) are
  represented by what they return: the plugin is a function of those
  results.
* `strconv.Atoi` and `json.Unmarshal` are modelled for the inputs the
  plugin gives them: `Atoi` on the label string with a 64-bit `int`,
  `Unmarshal` into `CustomSchedulerArgs` on the syntax tree of the payload.
* A Go `map[string]string` is an association list; reading a missing key
  gives the empty string, as in Go.
-/

namespace Plugins

/-! ## Go `int64` arithmetic -/

/-- Two's-complement reduction of an integer into `[-2^63, 2^63)`. -/
def wrap64 (x : Int) : Int :=
  (x + 9223372036854775808) % 18446744073709551616 - 9223372036854775808

/-- The range of a Go `int64`. -/
def InInt64 (x : Int) : Prop :=
  -9223372036854775808 ≤ x ∧ x < 9223372036854775808

instance (x : Int) : Decidable (InInt64 x) := by
  unfold InInt64; infer_instance

/-- A Go `int64` value. -/
abbrev GoInt64 : Type := { x : Int // InInt64 x }

namespace GoInt64

/-- Conversion `int64(x)` of an arbitrary integer, wrapping. -/
def ofInt (x : Int) : GoInt64 :=
  ⟨wrap64 x, by unfold InInt64 wrap64; omega⟩

/-- Go `a + b` on `int64`. -/
def add (a b : GoInt64) : GoInt64 := ofInt (a.val + b.val)

/-- Go `a - b` on `int64`. -/
def sub (a b : GoInt64) : GoInt64 := ofInt (a.val - b.val)

/-- Go `a * b` on `int64`. -/
def mul (a b : GoInt64) : GoInt64 := ofInt (a.val * b.val)

/-- Go unary `-a` on `int64`. -/
def neg (a : GoInt64) : GoInt64 := ofInt (-a.val)

/-- Go `a / b` on `int64`: truncated quotient, wrapping (`MinInt64 / -1`
is `MinInt64`); a zero divisor panics (`none`). -/
def div (a b : GoInt64) : Option GoInt64 :=
  if b.val = 0 then none else some (ofInt (Int.tdiv a.val b.val))

end GoInt64

instance : OfNat GoInt64 0 := ⟨GoInt64.ofInt 0⟩

/-! ## Host framework types (`k8s.io/kubernetes/pkg/scheduler/framework`) -/

/-- The status codes of `framework.Code`. -/
inductive Code where
  | Success
  | Error
  | Unschedulable
  | UnschedulableAndUnresolvable
  | Wait
  | Skip
  deriving DecidableEq, Repr

/-- A `*framework.Status`: a code and the reasons passed to `NewStatus`. -/
structure Status where
  code : Code
  reasons : List String
  deriving DecidableEq, Repr

/-- Constructor `framework.NewStatus(code, reason)`. -/
def NewStatus (code : Code) (reason : String) : Status :=
  { code := code, reasons := [reason] }

/-- Constant `framework.MinNodeScore`. -/
def MinNodeScore : GoInt64 := GoInt64.ofInt 0

/-- Constant `framework.MaxNodeScore`. -/
def MaxNodeScore : GoInt64 := GoInt64.ofInt 100

/-- A Go `map[string]string`. -/
abbrev StringMap : Type := List (String × String)

/-- Go map read `m[k]`: the zero value `""` when the key is missing. -/
def StringMap.get (m : StringMap) (k : String) : String :=
  (m.lookup k).getD ""

/-- The part of a `v1.Pod` the plugin reads. -/
structure Pod where
  Name : String
  Labels : StringMap
  deriving DecidableEq, Repr

/-- A `labels.Selector` built from a label set. -/
structure Selector where
  labelSet : StringMap
  deriving DecidableEq, Repr

/-- Constructor `labels.SelectorFromSet`. -/
def SelectorFromSet (labelSet : StringMap) : Selector := { labelSet := labelSet }

/-- The part of a `framework.Resource` the plugin reads. -/
structure Resource where
  Memory : GoInt64
  deriving DecidableEq

/-- The part of a `framework.NodeInfo` the plugin reads. -/
structure NodeInfo where
  Allocatable : Resource
  Requested : Resource
  deriving DecidableEq

/-- The part of a `framework.Handle` the plugin uses: the pod lister
`SharedInformerFactory().Core().V1().Pods().Lister().List`, returning the
pods and an error, and the node lookup
`SnapshotSharedLister().NodeInfos().Get`. -/
structure Handle where
  listPods : Selector → List Pod × Option String
  getNodeInfo : String → Except String NodeInfo

/-- A `framework.PreFilterResult`; `NodeNames` is a `sets.String`. -/
structure PreFilterResult where
  NodeNames : List String
  deriving DecidableEq, Repr

/-- A `framework.NodeScore`. -/
structure NodeScore where
  Name : String
  Score : GoInt64
  deriving DecidableEq

/-- A `framework.NodeScoreList`. -/
abbrev NodeScoreList : Type := List NodeScore

/-! ## Go standard library: `strconv.Atoi` -/

/-- The value of a run of decimal digits, most significant first. -/
def decimalValue (ds : List Char) : Nat :=
  ds.foldl (fun n ch => n * 10 + (ch.toNat - '0'.toNat)) 0

/-- Go `strconv.Atoi` with a 64-bit `int`: an optional sign `+` or `-`
followed by one or more decimal digits whose value fits `int`; `none`
stands for a non-nil error (`ErrSyntax` or `ErrRange`). -/
def Atoi (s : String) : Option Int :=
  let neg : Bool := s.data.head? = some '-'
  let ds : List Char :=
    match s.data with
    | '-' :: r => r
    | '+' :: r => r
    | cs => cs
  if ds = [] then none
  else if ¬ ds.all Char.isDigit then none
  else
    let un := decimalValue ds
    if ¬ neg ∧ un ≥ 9223372036854775808 then none
    else if neg ∧ un > 9223372036854775808 then none
    else some (if neg then -(un : Int) else (un : Int))

/-! ## Go standard library: `encoding/json` into `CustomSchedulerArgs` -/

/-- A JSON text, by its syntax tree. -/
inductive JSON where
  | null
  | bool (b : Bool)
  | number (literal : String)
  | str (s : String)
  | arr (elems : List JSON)
  | obj (members : List (String × JSON))

/-- The struct `CustomSchedulerArgs`. -/
structure CustomSchedulerArgs where
  Mode : String
  deriving DecidableEq, Repr

/-- Whether an object key selects the struct field tagged `json:"mode"`:
an exact match, else a case-insensitive one. -/
def keyIsMode (key : String) : Bool :=
  key = "mode" ∨ key.data.map Char.toLower = "mode".data

/-- Decoding of one object member into `CustomSchedulerArgs`: a string
stored under the `mode` key sets `Mode`, `null` is a no-op, any other value
under that key records an `UnmarshalTypeError` (only the first error is
kept) and is skipped; other keys are ignored. -/
def decodeMember (st : CustomSchedulerArgs × Option String) (m : String × JSON) :
    CustomSchedulerArgs × Option String :=
  if keyIsMode m.1 then
    match m.2 with
    | .str s => ({ st.1 with Mode := s }, st.2)
    | .null => st
    | .bool _ => (st.1, st.2.orElse fun _ => some "json: cannot unmarshal bool into Go struct field CustomSchedulerArgs.mode of type string")
    | .number _ => (st.1, st.2.orElse fun _ => some "json: cannot unmarshal number into Go struct field CustomSchedulerArgs.mode of type string")
    | .arr _ => (st.1, st.2.orElse fun _ => some "json: cannot unmarshal array into Go struct field CustomSchedulerArgs.mode of type string")
    | .obj _ => (st.1, st.2.orElse fun _ => some "json: cannot unmarshal object into Go struct field CustomSchedulerArgs.mode of type string")
  else st

/-- Go `json.Unmarshal(raw, &csArgs)`: the struct after the call and the
returned error. `raw` is `none` when the bytes are not well-formed JSON
(the call then fails before storing anything), else their syntax tree. -/
def jsonUnmarshal (raw : Option JSON) (csArgs : CustomSchedulerArgs) :
    CustomSchedulerArgs × Option String :=
  match raw with
  | none => (csArgs, some "invalid character or unexpected end of JSON input")
  | some .null => (csArgs, none)
  | some (.obj members) => members.foldl decodeMember (csArgs, none)
  | some (.bool _) => (csArgs, some "json: cannot unmarshal bool into Go value of type plugins.CustomSchedulerArgs")
  | some (.number _) => (csArgs, some "json: cannot unmarshal number into Go value of type plugins.CustomSchedulerArgs")
  | some (.str _) => (csArgs, some "json: cannot unmarshal string into Go value of type plugins.CustomSchedulerArgs")
  | some (.arr _) => (csArgs, some "json: cannot unmarshal array into Go value of type plugins.CustomSchedulerArgs")

/-- A `*runtime.Unknown`: its `Raw` bytes, given as for `jsonUnmarshal`. -/
structure Unknown where
  Raw : Option JSON

/-! ## The plugin -/

/-- The struct `CustomScheduler`. -/
structure CustomScheduler where
  handle : Handle
  scoreMode : String

/-- Constant `Name`. -/
def Name : String := "CustomScheduler"
/-- Constant `groupNameLabel`. -/
def groupNameLabel : String := "podGroup"
/-- Constant `minAvailableLabel`. -/
def minAvailableLabel : String := "minAvailable"
/-- Constant `leastMode`. -/
def leastMode : String := "Least"
/-- Constant `mostMode`. -/
def mostMode : String := "Most"

/-- Method `(*CustomScheduler).Name`. -/
def CustomScheduler.Name (_cs : CustomScheduler) : String := Plugins.Name

/-- Function `New`: `obj` is `none` for a nil object; the result is the
plugin or the returned error. The unmarshal error is printed and not
returned. -/
def New (obj : Option Unknown) (h : Handle) : Except String CustomScheduler :=
  match obj with
  | none => .ok { handle := h, scoreMode := leastMode }
  | some args =>
    let csArgs := (jsonUnmarshal args.Raw { Mode := "" }).1
    let mode := csArgs.Mode
    if mode ≠ leastMode ∧ mode ≠ mostMode then
      .error ("invalid mode, got " ++ mode)
    else
      .ok { handle := h, scoreMode := mode }

/-- Method `PreFilter`: the returned `*PreFilterResult` (`none` for nil)
and status. The lister's error is discarded. -/
def CustomScheduler.PreFilter (cs : CustomScheduler) (pod : Pod) :
    Option PreFilterResult × Status :=
  let newStatus := NewStatus .Success ""
  let group_label := pod.Labels.get groupNameLabel
  let labelSet : StringMap := [(groupNameLabel, group_label)]
  let selector := SelectorFromSet labelSet
  let pods := (cs.handle.listPods selector).1
  match Atoi (pod.Labels.get minAvailableLabel) with
  | none =>
    (none, NewStatus .Error "strconv.Atoi(pod.Labels[minAvailableLabel]) error")
  | some min_count =>
    if (pods.length : Int) ≥ min_count then
      (none, newStatus)
    else
      (some { NodeNames := [] }, NewStatus .Unschedulable "")

/-- Method `Score`: the raw score and status for one node. -/
def CustomScheduler.Score (cs : CustomScheduler) (_pod : Pod) (nodeName : String) :
    GoInt64 × Status :=
  let newStatus := NewStatus .Success ""
  match cs.handle.getNodeInfo nodeName with
  | .error err => (0, NewStatus .Error err)
  | .ok nodeInfo =>
    let allocatableMemory := nodeInfo.Allocatable.Memory
    let requestedMemory := nodeInfo.Requested.Memory
    let memory := GoInt64.sub allocatableMemory requestedMemory
    if cs.scoreMode = leastMode then
      (GoInt64.neg memory, newStatus)
    else
      (memory, newStatus)

/-- One iteration of the first loop of `NormalizeScore` on the pair
`(minScore, maxScore)`. -/
def scanStep (acc : GoInt64 × GoInt64) (score : NodeScore) : GoInt64 × GoInt64 :=
  let minScore := if score.Score.val < acc.1.val then score.Score else acc.1
  let maxScore := if score.Score.val > acc.2.val then score.Score else acc.2
  (minScore, maxScore)

/-- The loop `for i := range scores { scores[i].Score = f(scores[i].Score) }`
from index `i` for `n` iterations, writing in place; `none` is a run-time
panic (index out of range, or a panic of `f`). -/
def updateLoop (f : GoInt64 → Option GoInt64) :
    Nat → Nat → NodeScoreList → Option NodeScoreList
  | 0, _, scores => some scores
  | n + 1, i, scores =>
    match scores[i]? with
    | none => none
    | some e =>
      match f e.Score with
      | none => none
      | some v => updateLoop f n (i + 1) (scores.set i { e with Score := v })

/-- The right-hand side of the rescaling assignment of `NormalizeScore`:
`MinNodeScore + (s-minScore)*(MaxNodeScore-MinNodeScore)/(maxScore-minScore)`. -/
def rescale (minNode maxNode minScore maxScore s : GoInt64) : Option GoInt64 :=
  (GoInt64.div (GoInt64.mul (GoInt64.sub s minScore) (GoInt64.sub maxNode minNode))
      (GoInt64.sub maxScore minScore)).map (GoInt64.add minNode)

/-- Method `NormalizeScore` with the framework's two score bounds as
parameters: the score list after the call and the returned status; `none`
is a run-time panic. -/
def NormalizeScoreWith (minNode maxNode : GoInt64) (scores : NodeScoreList) :
    Option (NodeScoreList × Status) :=
  match scores with
  | [] => some (scores, NewStatus .Error "no scores to normalize")
  | first :: _ =>
    let newStatus := NewStatus .Success ""
    let mm := scores.foldl scanStep (first.Score, first.Score)
    let minScore := mm.1
    let maxScore := mm.2
    if maxScore = minScore then
      (updateLoop (fun _ => some 0) scores.length 0 scores).map fun out => (out, newStatus)
    else
      (updateLoop (rescale minNode maxNode minScore maxScore) scores.length 0 scores).map
        fun out => (out, newStatus)

/-- Method `NormalizeScore`. -/
def CustomScheduler.NormalizeScore (_cs : CustomScheduler) (_pod : Pod)
    (scores : NodeScoreList) : Option (NodeScoreList × Status) :=
  NormalizeScoreWith MinNodeScore MaxNodeScore scores

/-- Method `ScoreExtensions`. -/
def CustomScheduler.ScoreExtensions (cs : CustomScheduler) : CustomScheduler := cs

/-! ## Specification vocabulary -/

/-- The raw score `lo` is the minimum of the scores of the list. -/
def IsMinScore (scores : NodeScoreList) (lo : GoInt64) : Prop :=
  (∃ e ∈ scores, e.Score = lo) ∧ ∀ e ∈ scores, lo.val ≤ e.Score.val

/-- The raw score `hi` is the maximum of the scores of the list. -/
def IsMaxScore (scores : NodeScoreList) (hi : GoInt64) : Prop :=
  (∃ e ∈ scores, e.Score = hi) ∧ ∀ e ∈ scores, e.Score.val ≤ hi.val

/-- The value written by the rescaling assignment, the division being
defined: `minNode + (s - lo) * (maxNode - minNode) / (hi - lo)` in `int64`
arithmetic. -/
def rescaleVal (minNode maxNode lo hi s : GoInt64) : GoInt64 :=
  GoInt64.add minNode
    (GoInt64.ofInt (Int.tdiv
      (GoInt64.mul (GoInt64.sub s lo) (GoInt64.sub maxNode minNode)).val
      (GoInt64.sub hi lo).val))


/-! ## Concrete clusters used to evaluate the plugin -/

/-- Whether a pod carries every label of the selector's label set. -/
def matchesSelector (sel : Selector) (p : Pod) : Bool :=
  sel.labelSet.all fun kv => p.Labels.lookup kv.1 = some kv.2

/-- A handle over a fixed store of pods and nodes: the lister returns the
stored pods matching the selector, the snapshot the stored node. -/
def storeHandle (pods : List Pod) (nodes : List (String × NodeInfo)) : Handle :=
  { listPods := fun sel => (pods.filter (matchesSelector sel), none)
    getNodeInfo := fun n =>
      match nodes.lookup n with
      | some info => .ok info
      | none => .error ("nodeinfo not found for node name " ++ n) }

/-- A pod with both gang labels set. -/
def gangPod (name group minAvailable : String) : Pod :=
  { Name := name, Labels := [(groupNameLabel, group), (minAvailableLabel, minAvailable)] }

/-- A plugin instance over a store of pods, in the given mode. -/
def pluginOver (mode : String) (pods : List Pod) (nodes : List (String × NodeInfo)) :
    CustomScheduler :=
  { handle := storeHandle pods nodes, scoreMode := mode }

/-- A node with the given allocatable and requested memory. -/
def nodeWith (allocatable requested : Int) : NodeInfo :=
  { Allocatable := { Memory := GoInt64.ofInt allocatable }
    Requested := { Memory := GoInt64.ofInt requested } }

/-- A score entry. -/
def entry (name : String) (score : Int) : NodeScore :=
  { Name := name, Score := GoInt64.ofInt score }

/-- The integer values of the scores of a `NormalizeScore` result. -/
def scoreValues (r : Option (NodeScoreList × Status)) : Option (List Int) :=
  r.map fun out => out.1.map fun e => e.Score.val

/-- The status code of a `NormalizeScore` result. -/
def statusCode (r : Option (NodeScoreList × Status)) : Option Code :=
  r.map fun out => out.2.code

/-- The mode of the plugin returned by `New`, when it returns one. -/
def builtMode (r : Except String CustomScheduler) : Option String :=
  match r with
  | .ok cs => some cs.scoreMode
  | .error _ => none

/-- A payload that is well-formed JSON but does not deserialize: the text
`{"mode":"Least","mode":5}`, whose second `mode` member is a number. -/
def duplicateModePayload : Unknown :=
  { Raw := some (.obj [("mode", .str "Least"), ("mode", .number "5")]) }

/-- A list with three distinct raw scores. -/
def threeNodes : NodeScoreList := [entry "a" 200, entry "b" 800, entry "c" 505]

/-! ## The plugin as a state machine -/

/-- A call of one of the plugin's methods by the framework. -/
inductive Call where
  | Name
  | PreFilter (pod : Pod)
  | PreFilterExtensions
  | Score (pod : Pod) (nodeName : String)
  | NormalizeScore (pod : Pod) (scores : NodeScoreList)
  | ScoreExtensions

/-- What a method call returns. -/
inductive Output where
  | name (s : String)
  | preFilter (r : Option PreFilterResult × Status)
  | preFilterExtensions
  | score (r : GoInt64 × Status)
  | normalizeScore (r : Option (NodeScoreList × Status))
  | scoreExtensions (cs : CustomScheduler)

/-- One method call on the receiver `cs` (a `*CustomScheduler`): the
receiver after the call and what the call returns. No method body assigns
to a field of its receiver. -/
def CustomScheduler.step (cs : CustomScheduler) : Call → CustomScheduler × Output
  | .Name => (cs, .name cs.Name)
  | .PreFilter pod => (cs, .preFilter (cs.PreFilter pod))
  | .PreFilterExtensions => (cs, .preFilterExtensions)
  | .Score pod nodeName => (cs, .score (cs.Score pod nodeName))
  | .NormalizeScore pod scores => (cs, .normalizeScore (cs.NormalizeScore pod scores))
  | .ScoreExtensions => (cs, .scoreExtensions cs.ScoreExtensions)

/-- The instances the framework can hold: those returned by `New`, after
any sequence of method calls. -/
inductive Reachable : CustomScheduler → Prop where
  | new (obj : Option Unknown) (h : Handle) (cs : CustomScheduler) :
      New obj h = .ok cs → Reachable cs
  | step (cs : CustomScheduler) (c : Call) : Reachable cs → Reachable (cs.step c).1

/-- A handle whose pod lister fails with the given error and returns the
given pods. -/
def failingListerHandle (pods : List Pod) (err : String) : Handle :=
  { listPods := fun _ => (pods, some err)
    getNodeInfo := fun n => .error ("nodeinfo not found for node name " ++ n) }

/-- A pod with a threshold label and no group label. -/
def ungroupedPod (name minAvailable : String) : Pod :=
  { Name := name, Labels := [(minAvailableLabel, minAvailable)] }

/-- Two nodes with memory headroom 0 and 2^61. -/
def wideNodes : List (String × NodeInfo) :=
  [("n1", nodeWith 1000 1000), ("n2", nodeWith 2305843009213693952 0)]

/-! ## What a payload asks for -/

/-- Whether an object key is `mode` up to the case of its ASCII letters. -/
def isModeKey (key : String) : Bool :=
  key.data.map Char.toLower = ['m', 'o', 'd', 'e']

/-- The strings that the members of an object offer for the `mode` field:
the string values stored under a `mode` key, in the order of the text. -/
def modeStrings (members : List (String × JSON)) : List String :=
  members.filterMap fun m =>
    match m.2 with
    | .str s => if isModeKey m.1 then some s else none
    | _ => none

/-- The mode a payload asks for: the last string stored under a `mode` key
of its top-level object; the empty string when there is none, when the
top-level value is not an object, and when the text is not JSON. -/
def payloadMode : Option JSON → String
  | some (.obj members) => ((modeStrings members).getLast?).getD ""
  | _ => ""

/-- Whether a member makes the deserialization fail: a `mode` key holding
a value that is neither a string nor `null`. -/
def badModeMember (m : String × JSON) : Bool :=
  isModeKey m.1 &&
    match m.2 with
    | .str _ => false
    | .null => false
    | _ => true

/-- Whether a payload is malformed, that is, fails to deserialize into
`CustomSchedulerArgs`: a text that is not JSON, a top-level value that is
neither an object nor `null`, or an object with a bad `mode` member. -/
def malformed : Option JSON → Bool
  | none => true
  | some .null => false
  | some (.obj members) => members.any badModeMember
  | some _ => true

/-! ## Lemmas on the in-place loops -/

/-- The in-place loop run over a suffix rewrites exactly that suffix,
each entry from its own score on entry. -/
theorem updateLoop_append (f : GoInt64 → Option GoInt64) (g : GoInt64 → GoInt64)
    (suf pre : NodeScoreList) (hf : ∀ e ∈ suf, f e.Score = some (g e.Score)) :
    updateLoop f suf.length pre.length (pre ++ suf)
      = some (pre ++ suf.map fun e => { e with Score := g e.Score }) := by
  induction suf generalizing pre with
  | nil => simp [updateLoop]
  | cons e rest ih =>
    have he : f e.Score = some (g e.Score) := hf e (List.mem_cons_self _ _)
    have hget : (pre ++ e :: rest)[pre.length]? = some e := by
      rw [List.getElem?_append_right (Nat.le_refl _)]; simp
    have hset : (pre ++ e :: rest).set pre.length { e with Score := g e.Score }
        = (pre ++ [{ e with Score := g e.Score }]) ++ rest := by simp
    have hlen : (pre ++ [{ e with Score := g e.Score }]).length = pre.length + 1 := by simp
    simp only [List.length_cons, updateLoop, hget, he, hset]
    rw [← hlen, ih _ (fun x hx => hf x (List.mem_cons_of_mem _ hx))]
    simp

/-- The in-place loop over the whole list is a pointwise map. -/
theorem updateLoop_eq_map (f : GoInt64 → Option GoInt64) (g : GoInt64 → GoInt64)
    (scores : NodeScoreList) (hf : ∀ e ∈ scores, f e.Score = some (g e.Score)) :
    updateLoop f scores.length 0 scores
      = some (scores.map fun e => { e with Score := g e.Score }) := by
  have h := updateLoop_append f g scores [] hf
  simpa using h

/-! ## Lemmas on the min/max scan -/

theorem isMinScore_unique {scores : NodeScoreList} {a b : GoInt64}
    (ha : IsMinScore scores a) (hb : IsMinScore scores b) : a = b := by
  obtain ⟨⟨ea, hea, rfl⟩, hla⟩ := ha
  obtain ⟨⟨eb, heb, rfl⟩, hlb⟩ := hb
  exact Subtype.ext (le_antisymm (hla eb heb) (hlb ea hea))

theorem isMaxScore_unique {scores : NodeScoreList} {a b : GoInt64}
    (ha : IsMaxScore scores a) (hb : IsMaxScore scores b) : a = b := by
  obtain ⟨⟨ea, hea, rfl⟩, hla⟩ := ha
  obtain ⟨⟨eb, heb, rfl⟩, hlb⟩ := hb
  exact Subtype.ext (le_antisymm (hlb ea hea) (hla eb heb))

/-- The running minimum of the scan: it is the start value or a score of
the list, and it is below both. -/
theorem scan_min (l : NodeScoreList) (acc : GoInt64 × GoInt64) :
    ((l.foldl scanStep acc).1 = acc.1 ∨ ∃ e ∈ l, e.Score = (l.foldl scanStep acc).1)
      ∧ (l.foldl scanStep acc).1.val ≤ acc.1.val
      ∧ ∀ e ∈ l, (l.foldl scanStep acc).1.val ≤ e.Score.val := by
  induction l generalizing acc with
  | nil => simp
  | cons x rest ih =>
    obtain ⟨h1, h2, h3⟩ := ih (scanStep acc x)
    simp only [List.foldl_cons]
    have hx : (scanStep acc x).1 = x.Score ∧ x.Score.val < acc.1.val
        ∨ (scanStep acc x).1 = acc.1 ∧ acc.1.val ≤ x.Score.val := by
      unfold scanStep
      by_cases hc : x.Score.val < acc.1.val
      · left; exact ⟨by simp [hc], hc⟩
      · right; exact ⟨by simp [hc], by omega⟩
    refine ⟨?_, ?_, ?_⟩
    · rcases h1 with h1 | ⟨e, he, h1⟩
      · rcases hx with ⟨hx, _⟩ | ⟨hx, _⟩
        · right; exact ⟨x, List.mem_cons_self _ _, by rw [h1, hx]⟩
        · left; rw [h1, hx]
      · right; exact ⟨e, List.mem_cons_of_mem _ he, h1⟩
    · rcases hx with ⟨hx, hlt⟩ | ⟨hx, _⟩
      · rw [hx] at h2; omega
      · rw [hx] at h2; exact h2
    · intro e he
      rcases List.mem_cons.mp he with rfl | he
      · rcases hx with ⟨hx, _⟩ | ⟨hx, hle⟩
        · rw [hx] at h2; exact h2
        · rw [hx] at h2; omega
      · exact h3 e he

/-- The running maximum of the scan: it is the start value or a score of
the list, and it is above both. -/
theorem scan_max (l : NodeScoreList) (acc : GoInt64 × GoInt64) :
    ((l.foldl scanStep acc).2 = acc.2 ∨ ∃ e ∈ l, e.Score = (l.foldl scanStep acc).2)
      ∧ acc.2.val ≤ (l.foldl scanStep acc).2.val
      ∧ ∀ e ∈ l, e.Score.val ≤ (l.foldl scanStep acc).2.val := by
  induction l generalizing acc with
  | nil => simp
  | cons x rest ih =>
    obtain ⟨h1, h2, h3⟩ := ih (scanStep acc x)
    simp only [List.foldl_cons]
    have hx : (scanStep acc x).2 = x.Score ∧ x.Score.val > acc.2.val
        ∨ (scanStep acc x).2 = acc.2 ∧ x.Score.val ≤ acc.2.val := by
      unfold scanStep
      by_cases hc : x.Score.val > acc.2.val
      · left; exact ⟨by simp [hc], hc⟩
      · right; exact ⟨by simp [hc], by omega⟩
    refine ⟨?_, ?_, ?_⟩
    · rcases h1 with h1 | ⟨e, he, h1⟩
      · rcases hx with ⟨hx, _⟩ | ⟨hx, _⟩
        · right; exact ⟨x, List.mem_cons_self _ _, by rw [h1, hx]⟩
        · left; rw [h1, hx]
      · right; exact ⟨e, List.mem_cons_of_mem _ he, h1⟩
    · rcases hx with ⟨hx, hlt⟩ | ⟨hx, _⟩
      · rw [hx] at h2; omega
      · rw [hx] at h2; exact h2
    · intro e he
      rcases List.mem_cons.mp he with rfl | he
      · rcases hx with ⟨hx, _⟩ | ⟨hx, hle⟩
        · rw [hx] at h2; exact h2
        · rw [hx] at h2; omega
      · exact h3 e he

/-- The scan started at the first entry computes the minimum of a non-empty
list. -/
theorem scan_isMin (first : NodeScore) (rest : NodeScoreList) :
    IsMinScore (first :: rest)
      ((first :: rest).foldl scanStep (first.Score, first.Score)).1 := by
  obtain ⟨h1, _, h3⟩ := scan_min (first :: rest) (first.Score, first.Score)
  refine ⟨?_, h3⟩
  rcases h1 with h1 | h1
  · exact ⟨first, List.mem_cons_self _ _, h1.symm⟩
  · exact h1

/-- The scan started at the first entry computes the maximum of a non-empty
list. -/
theorem scan_isMax (first : NodeScore) (rest : NodeScoreList) :
    IsMaxScore (first :: rest)
      ((first :: rest).foldl scanStep (first.Score, first.Score)).2 := by
  obtain ⟨h1, _, h3⟩ := scan_max (first :: rest) (first.Score, first.Score)
  refine ⟨?_, h3⟩
  rcases h1 with h1 | h1
  · exact ⟨first, List.mem_cons_self _ _, h1.symm⟩
  · exact h1

/-! ## Lemmas on `int64` arithmetic -/

theorem wrap64_inInt64 (x : Int) : InInt64 (wrap64 x) := by
  unfold InInt64 wrap64; omega

theorem wrap64_of_inInt64 {x : Int} (h : InInt64 x) : wrap64 x = x := by
  unfold InInt64 at h; unfold wrap64; omega

theorem GoInt64.sub_val_ne_zero {a b : GoInt64} (h : a ≠ b) : (GoInt64.sub a b).val ≠ 0 := by
  intro h0
  apply h
  apply Subtype.ext
  have ha := a.property
  have hb := b.property
  unfold InInt64 at ha hb
  simp only [GoInt64.sub, GoInt64.ofInt, wrap64] at h0
  omega

theorem rescale_eq_some (minNode maxNode lo hi s : GoInt64) (h : lo ≠ hi) :
    rescale minNode maxNode lo hi s = some (rescaleVal minNode maxNode lo hi s) := by
  have hd : (GoInt64.sub hi lo).val ≠ 0 := GoInt64.sub_val_ne_zero (Ne.symm h)
  simp [rescale, rescaleVal, GoInt64.div, hd]

/-! ## Closed forms of `NormalizeScore` -/

/-- Rescaling branch: with distinct minimum `lo` and maximum `hi` of the
list on entry, the call does not panic, succeeds, and rewrites every entry
from its own raw score. -/
theorem NormalizeScoreWith_rescale (minNode maxNode : GoInt64) (scores : NodeScoreList)
    (lo hi : GoInt64) (hlo : IsMinScore scores lo) (hhi : IsMaxScore scores hi)
    (hne : lo ≠ hi) :
    NormalizeScoreWith minNode maxNode scores
      = some (scores.map (fun e => { e with Score := rescaleVal minNode maxNode lo hi e.Score }),
          NewStatus .Success "") := by
  cases scores with
  | nil => obtain ⟨⟨e, he, _⟩, _⟩ := hlo; cases he
  | cons first rest =>
    have h1 := isMinScore_unique (scan_isMin first rest) hlo
    have h2 := isMaxScore_unique (scan_isMax first rest) hhi
    simp only [NormalizeScoreWith, h1, h2]
    rw [if_neg (Ne.symm hne)]
    rw [updateLoop_eq_map _ (rescaleVal minNode maxNode lo hi) _
      (fun e _ => rescale_eq_some minNode maxNode lo hi e.Score hne)]
    rfl

/-- Degenerate branch: when the minimum and the maximum of the list on
entry coincide, the call does not panic, succeeds, and writes 0 everywhere. -/
theorem NormalizeScoreWith_degenerate (minNode maxNode : GoInt64) (scores : NodeScoreList)
    (c : GoInt64) (hlo : IsMinScore scores c) (hhi : IsMaxScore scores c) :
    NormalizeScoreWith minNode maxNode scores
      = some (scores.map (fun e => { e with Score := 0 }), NewStatus .Success "") := by
  cases scores with
  | nil => obtain ⟨⟨e, he, _⟩, _⟩ := hlo; cases he
  | cons first rest =>
    have h1 := isMinScore_unique (scan_isMin first rest) hlo
    have h2 := isMaxScore_unique (scan_isMax first rest) hhi
    simp only [NormalizeScoreWith, h1, h2, if_true]
    rw [updateLoop_eq_map _ (fun _ => 0) _ (fun e _ => rfl)]
    rfl

/-! ## The rescaling value when the product does not overflow -/

theorem GoInt64.ofInt_val_of_inInt64 {x : Int} (h : InInt64 x) : (GoInt64.ofInt x).val = x :=
  wrap64_of_inInt64 h

theorem boundsDiff_val : (GoInt64.sub MaxNodeScore MinNodeScore).val = 100 := by decide

/-- When `(hi - lo) * 100` fits `int64`, the `int64` rescaling of a score
`s` between `lo` and `hi` is the mathematical truncated quotient
`(s - lo) * 100 / (hi - lo)`, and lies between 0 and 100. -/
theorem rescaleVal_noOverflow (lo hi s : GoInt64) (hls : lo.val ≤ s.val)
    (hsh : s.val ≤ hi.val) (hne : lo ≠ hi) (hno : InInt64 ((hi.val - lo.val) * 100)) :
    (rescaleVal MinNodeScore MaxNodeScore lo hi s).val
        = Int.tdiv ((s.val - lo.val) * 100) (hi.val - lo.val)
      ∧ Int.tdiv ((s.val - lo.val) * 100) (hi.val - lo.val)
        = (s.val - lo.val) * 100 / (hi.val - lo.val)
      ∧ 0 ≤ (s.val - lo.val) * 100 / (hi.val - lo.val)
      ∧ (s.val - lo.val) * 100 / (hi.val - lo.val) ≤ 100 := by
  have hlo := lo.property
  have hhi := hi.property
  have hs := s.property
  unfold InInt64 at hlo hhi hs hno
  have hlt : lo.val < hi.val := by
    rcases lt_or_eq_of_le (Int.le_trans hls hsh) with h | h
    · exact h
    · exact absurd (Subtype.ext h) hne
  have h1 : (GoInt64.sub s lo).val = s.val - lo.val :=
    GoInt64.ofInt_val_of_inInt64 (by unfold InInt64; omega)
  have h3 : (GoInt64.mul (GoInt64.sub s lo) (GoInt64.sub MaxNodeScore MinNodeScore)).val
      = (s.val - lo.val) * 100 := by
    unfold GoInt64.mul
    rw [h1, boundsDiff_val]
    exact GoInt64.ofInt_val_of_inInt64 (by unfold InInt64; omega)
  have h4 : (GoInt64.sub hi lo).val = hi.val - lo.val :=
    GoInt64.ofInt_val_of_inInt64 (by unfold InInt64; omega)
  have hq : Int.tdiv ((s.val - lo.val) * 100) (hi.val - lo.val)
      = (s.val - lo.val) * 100 / (hi.val - lo.val) :=
    Int.tdiv_eq_ediv (by omega) (by omega)
  have hq0 : 0 ≤ (s.val - lo.val) * 100 / (hi.val - lo.val) :=
    Int.ediv_nonneg (by omega) (by omega)
  have hq1 : (s.val - lo.val) * 100 / (hi.val - lo.val) ≤ 100 :=
    Int.ediv_le_of_le_mul (by omega) (by omega)
  refine ⟨?_, hq, hq0, hq1⟩
  unfold rescaleVal
  rw [h3, h4, hq]
  have h5 : (GoInt64.ofInt ((s.val - lo.val) * 100 / (hi.val - lo.val))).val
      = (s.val - lo.val) * 100 / (hi.val - lo.val) :=
    GoInt64.ofInt_val_of_inInt64 (by unfold InInt64; omega)
  unfold GoInt64.add
  rw [h5]
  have h6 : MinNodeScore.val = 0 := by decide
  rw [h6, Int.zero_add]
  exact h5

/-- Without overflow the rescaling is monotone in the raw score. -/
theorem rescaleVal_mono_noOverflow (lo hi a b : GoInt64) (hla : lo.val ≤ a.val)
    (hab : a.val ≤ b.val) (hbh : b.val ≤ hi.val) (hne : lo ≠ hi)
    (hno : InInt64 ((hi.val - lo.val) * 100)) :
    (rescaleVal MinNodeScore MaxNodeScore lo hi a).val
      ≤ (rescaleVal MinNodeScore MaxNodeScore lo hi b).val := by
  have hlo := lo.property
  have hhi := hi.property
  unfold InInt64 at hlo hhi
  have hlt : lo.val < hi.val := by
    rcases lt_or_eq_of_le (Int.le_trans hla (Int.le_trans hab hbh)) with h | h
    · exact h
    · exact absurd (Subtype.ext h) hne
  obtain ⟨ha1, ha2, _, _⟩ := rescaleVal_noOverflow lo hi a hla (Int.le_trans hab hbh) hne hno
  obtain ⟨hb1, hb2, _, _⟩ := rescaleVal_noOverflow lo hi b (Int.le_trans hla hab) hbh hne hno
  rw [ha1, ha2, hb1, hb2]
  exact Int.ediv_le_ediv (by omega) (by omega)

/-- The entry holding the minimum is rescaled to 0, overflow or not. -/
theorem rescaleVal_min (lo hi : GoInt64) :
    (rescaleVal MinNodeScore MaxNodeScore lo hi lo).val = 0 := by
  have h1 : GoInt64.sub lo lo = GoInt64.ofInt 0 := by
    unfold GoInt64.sub; rw [Int.sub_self]
  have h2 : (GoInt64.mul (GoInt64.ofInt 0) (GoInt64.sub MaxNodeScore MinNodeScore)).val = 0 := by
    decide
  unfold rescaleVal
  rw [h1, h2, Int.zero_tdiv]
  decide

/-- Without overflow the entry holding the maximum is rescaled to 100. -/
theorem rescaleVal_max_noOverflow (lo hi : GoInt64) (hle : lo.val ≤ hi.val) (hne : lo ≠ hi)
    (hno : InInt64 ((hi.val - lo.val) * 100)) :
    (rescaleVal MinNodeScore MaxNodeScore lo hi hi).val = 100 := by
  obtain ⟨h1, h2, _, _⟩ := rescaleVal_noOverflow lo hi hi hle (Int.le_refl _) hne hno
  rw [h1, h2]
  have hd : hi.val - lo.val ≠ 0 := by
    intro h0
    exact hne (Subtype.ext (by omega))
  exact Int.mul_ediv_cancel_left 100 hd

/-- Without overflow `NormalizeScore` succeeds with every score between
`MinNodeScore` and `MaxNodeScore`. -/
theorem NormalizeScore_range_noOverflow (cs : CustomScheduler) (pod : Pod)
    (scores : NodeScoreList) (lo hi : GoInt64)
    (hlo : IsMinScore scores lo) (hhi : IsMaxScore scores hi)
    (hno : InInt64 ((hi.val - lo.val) * 100)) :
    ∃ out, cs.NormalizeScore pod scores = some (out, NewStatus .Success "")
      ∧ ∀ e ∈ out, MinNodeScore.val ≤ e.Score.val ∧ e.Score.val ≤ MaxNodeScore.val := by
  have hmin : MinNodeScore.val = 0 := by decide
  have hmax : MaxNodeScore.val = 100 := by decide
  unfold CustomScheduler.NormalizeScore
  by_cases hne : lo = hi
  · subst hne
    refine ⟨_, NormalizeScoreWith_degenerate MinNodeScore MaxNodeScore scores lo hlo hhi, ?_⟩
    intro e he
    obtain ⟨e0, _, rfl⟩ := List.mem_map.mp he
    rw [hmin, hmax]
    show (0 : Int) ≤ (GoInt64.ofInt 0).val ∧ (GoInt64.ofInt 0).val ≤ 100
    decide
  · refine ⟨_, NormalizeScoreWith_rescale MinNodeScore MaxNodeScore scores lo hi hlo hhi hne, ?_⟩
    intro e he
    obtain ⟨e0, he0, rfl⟩ := List.mem_map.mp he
    obtain ⟨h1, h2, h3, h4⟩ :=
      rescaleVal_noOverflow lo hi e0.Score (hlo.2 e0 he0) (hhi.2 e0 he0) hne hno
    rw [hmin, hmax]
    show 0 ≤ (rescaleVal MinNodeScore MaxNodeScore lo hi e0.Score).val
      ∧ (rescaleVal MinNodeScore MaxNodeScore lo hi e0.Score).val ≤ 100
    rw [h1, h2]
    exact ⟨h3, h4⟩

/-! ## Lemmas on the decoding of a payload -/

theorem keyIsMode_eq (key : String) : keyIsMode key = isModeKey key := by
  unfold keyIsMode isModeKey
  by_cases h : key.data.map Char.toLower = ['m', 'o', 'd', 'e']
  · have h2 : key.data.map Char.toLower = "mode".data := h
    simp [h, h2]
  · have h2 : ¬ key.data.map Char.toLower = "mode".data := h
    have h3 : key ≠ "mode" := by
      intro hk
      apply h
      rw [hk]
      decide
    simp [h, h2, h3]

/-- The `Mode` left by decoding the members of an object is the last
string offered for it, or the `Mode` before the call. -/
theorem decode_members_mode (members : List (String × JSON))
    (st : CustomSchedulerArgs × Option String) :
    (members.foldl decodeMember st).1.Mode = ((modeStrings members).getLast?).getD st.1.Mode := by
  induction members generalizing st with
  | nil => rfl
  | cons m rest ih =>
    rw [List.foldl_cons, ih]
    obtain ⟨k, v⟩ := m
    unfold modeStrings decodeMember
    rw [keyIsMode_eq]
    cases hk : isModeKey k <;> cases v <;>
      simp [List.filterMap_cons, hk, List.getLast?_cons]

/-- Decoding the members of an object reports an error exactly when one
was recorded before or some member is a bad `mode` member. -/
theorem decode_members_error (members : List (String × JSON))
    (st : CustomSchedulerArgs × Option String) :
    (members.foldl decodeMember st).2.isSome = (st.2.isSome || members.any badModeMember) := by
  induction members generalizing st with
  | nil => simp
  | cons m rest ih =>
    rw [List.foldl_cons, ih]
    obtain ⟨k, v⟩ := m
    unfold decodeMember badModeMember
    rw [keyIsMode_eq]
    cases hk : isModeKey k <;> cases v <;> cases hs : st.2 <;>
      simp [hk, hs, Option.orElse]

/-- The `Mode` left by `json.Unmarshal` in a zero `CustomSchedulerArgs` is
the mode the payload asks for. -/
theorem jsonUnmarshal_mode (raw : Option JSON) :
    (jsonUnmarshal raw { Mode := "" }).1.Mode = payloadMode raw := by
  cases raw with
  | none => rfl
  | some v =>
    cases v with
    | obj members => exact decode_members_mode members _
    | _ => rfl

/-- The call `json.Unmarshal` returns an error exactly on a malformed
payload. -/
theorem jsonUnmarshal_error (raw : Option JSON) :
    (jsonUnmarshal raw { Mode := "" }).2.isSome = malformed raw := by
  cases raw with
  | none => rfl
  | some v =>
    cases v with
    | obj members =>
      have h := decode_members_error members ({ Mode := "" }, none)
      simpa [jsonUnmarshal, malformed] using h
    | _ => rfl

/-! # Claims -/

/-! ## Admission gate (`PreFilter`) -/

/-- C1. For a pod whose `minAvailable` label parses to `t` and a lister
returning `pods` for the selector of the pod's `podGroup` label, `PreFilter`
returns a nil result with status `Success` exactly when
`len(pods) >= t`; otherwise it returns status `Unschedulable` with a result
whose `NodeNames` set is empty. -/
theorem PreFilter_admits_iff (cs : CustomScheduler) (pod : Pod) (t : Int) (pods : List Pod)
    (ht : Atoi (pod.Labels.get minAvailableLabel) = some t)
    (hl : (cs.handle.listPods
      (SelectorFromSet [(groupNameLabel, pod.Labels.get groupNameLabel)])).1 = pods) :
    (cs.PreFilter pod = (none, NewStatus .Success "") ↔ (pods.length : Int) ≥ t)
      ∧ (¬ (pods.length : Int) ≥ t →
          cs.PreFilter pod = (some { NodeNames := [] }, NewStatus .Unschedulable "")) := by
  unfold CustomScheduler.PreFilter
  simp only [ht, hl]
  by_cases hk : (pods.length : Int) ≥ t
  · simp [hk]
  · simp [hk, NewStatus]

/-- C1, scenario: group `g1` with threshold 2 is rejected with one visible
member and admitted with two. -/
theorem PreFilter_admits_iff_witness :
    (pluginOver leastMode [gangPod "p1" "g1" "2"] []).PreFilter (gangPod "p1" "g1" "2")
        = (some { NodeNames := [] }, NewStatus .Unschedulable "")
      ∧ (pluginOver leastMode [gangPod "p1" "g1" "2", gangPod "p2" "g1" "2"] []).PreFilter
          (gangPod "p1" "g1" "2") = (none, NewStatus .Success "") :=
  ⟨(PreFilter_admits_iff (pluginOver leastMode [gangPod "p1" "g1" "2"] [])
      (gangPod "p1" "g1" "2") 2 [gangPod "p1" "g1" "2"] (by decide) (by decide)).2 (by decide),
   (PreFilter_admits_iff
      (pluginOver leastMode [gangPod "p1" "g1" "2", gangPod "p2" "g1" "2"] [])
      (gangPod "p1" "g1" "2") 2 [gangPod "p1" "g1" "2", gangPod "p2" "g1" "2"]
      (by decide) (by decide)).1.2 (by decide)⟩

/-- C7. For a pod whose `minAvailable` label is absent, or is a string that
`strconv.Atoi` rejects, `PreFilter` returns a nil result and status `Error`,
whatever the lister returns. -/
theorem PreFilter_unparseable_threshold (cs : CustomScheduler) (pod : Pod)
    (h : pod.Labels.lookup minAvailableLabel = none
      ∨ Atoi (pod.Labels.get minAvailableLabel) = none) :
    cs.PreFilter pod
      = (none, NewStatus .Error "strconv.Atoi(pod.Labels[minAvailableLabel]) error") := by
  have hnone : Atoi (pod.Labels.get minAvailableLabel) = none := by
    rcases h with h | h
    · simp only [StringMap.get, h, Option.getD_none]; decide
    · exact h
  unfold CustomScheduler.PreFilter
  simp only [hnone]

/-- C7, instances: an absent label, an empty one, a non-numeric one and one
beyond the range of `int` are all answered with `Error`, for groups of 0, 1
and 2 visible pods. -/
theorem PreFilter_unparseable_threshold_witness :
    ((pluginOver leastMode [] []).PreFilter
        { Name := "p", Labels := [(groupNameLabel, "g1")] }).2.code = .Error
      ∧ ((pluginOver leastMode [gangPod "p1" "g1" ""] []).PreFilter
        (gangPod "p1" "g1" "")).2.code = .Error
      ∧ ((pluginOver leastMode [gangPod "p1" "g1" "two", gangPod "p2" "g1" "2"] []).PreFilter
        (gangPod "p1" "g1" "two")).2.code = .Error
      ∧ ((pluginOver mostMode [] []).PreFilter
        (gangPod "p1" "g1" "9223372036854775808")).2.code = .Error := by
  refine ⟨?_, ?_, ?_, ?_⟩
  · rw [PreFilter_unparseable_threshold _ _ (Or.inl (by decide))]; rfl
  · rw [PreFilter_unparseable_threshold _ _ (Or.inr (by decide))]; rfl
  · rw [PreFilter_unparseable_threshold _ _ (Or.inr (by decide))]; rfl
  · rw [PreFilter_unparseable_threshold _ _ (Or.inr (by decide))]; rfl

/-- C6, as stated, fails: the label `-1` is not a non-negative integer, yet
`strconv.Atoi` parses it and `PreFilter` admits the pod (here with no pod
visible in its group) instead of reporting `Error`. -/
theorem PreFilter_negative_threshold_admitted :
    Atoi ((gangPod "p1" "g1" "-1").Labels.get minAvailableLabel) = some (-1)
      ∧ (¬ ∃ n : Nat, Atoi ((gangPod "p1" "g1" "-1").Labels.get minAvailableLabel)
            = some (n : Int))
      ∧ (pluginOver leastMode [] []).PreFilter (gangPod "p1" "g1" "-1")
          = (none, NewStatus .Success "") := by
  have h : Atoi ((gangPod "p1" "g1" "-1").Labels.get minAvailableLabel) = some (-1) := by
    decide
  refine ⟨h, ?_, by decide⟩
  rintro ⟨n, hn⟩
  rw [h] at hn
  have := Option.some.inj hn
  omega

/-- C6, amended. `PreFilter` reports `Error` exactly when `strconv.Atoi`
rejects the `minAvailable` label, whatever the number of pods in the group;
a label that parses to a negative integer is compared like any other
threshold, so the pod is admitted. -/
theorem PreFilter_error_iff_atoi_fails (cs : CustomScheduler) (pod : Pod) :
    ((cs.PreFilter pod).2.code = .Error ↔ Atoi (pod.Labels.get minAvailableLabel) = none)
      ∧ (∀ t : Int, Atoi (pod.Labels.get minAvailableLabel) = some t → t < 0 →
          cs.PreFilter pod = (none, NewStatus .Success "")) := by
  unfold CustomScheduler.PreFilter
  cases hA : Atoi (pod.Labels.get minAvailableLabel) with
  | none => simp [NewStatus]
  | some t =>
    refine ⟨?_, ?_⟩
    · simp only [reduceCtorEq, iff_false]
      split <;> simp [NewStatus]
    · intro t' ht' hneg
      have htt : t = t' := Option.some.inj ht'
      subst htt
      have hk : ((cs.handle.listPods
          (SelectorFromSet [(groupNameLabel, pod.Labels.get groupNameLabel)])).1.length : Int)
          ≥ t := by omega
      simp [hk]

/-- C6, amended, instances: `-1` is admitted with an empty group, and a
non-numeric label is an `Error` with a full group. -/
theorem PreFilter_error_iff_atoi_fails_witness :
    (pluginOver leastMode [] []).PreFilter (gangPod "p1" "g1" "-1")
        = (none, NewStatus .Success "")
      ∧ ((pluginOver leastMode [gangPod "p1" "g1" "x"] []).PreFilter
          (gangPod "p1" "g1" "x")).2.code = .Error :=
  ⟨(PreFilter_error_iff_atoi_fails (pluginOver leastMode [] []) (gangPod "p1" "g1" "-1")).2
      (-1) (by decide) (by decide),
   (PreFilter_error_iff_atoi_fails (pluginOver leastMode [gangPod "p1" "g1" "x"] [])
      (gangPod "p1" "g1" "x")).1.2 (by decide)⟩

/-! ## Node scorer (`Score`) -/

theorem GoInt64.neg_sub (a b : GoInt64) : GoInt64.neg (GoInt64.sub a b) = GoInt64.sub b a := by
  apply Subtype.ext
  simp only [GoInt64.neg, GoInt64.sub, GoInt64.ofInt, wrap64]
  omega

/-- C4. For a node that resolves with allocatable memory `a` and requested
memory `r`, `Score` returns status `Success` with raw score `r - a` in mode
`Least` and `a - r` in mode `Most` (`int64` subtraction). -/
theorem Score_formula (cs : CustomScheduler) (pod : Pod) (nodeName : String) (info : NodeInfo)
    (h : cs.handle.getNodeInfo nodeName = .ok info) :
    (cs.scoreMode = leastMode → cs.Score pod nodeName
        = (GoInt64.sub info.Requested.Memory info.Allocatable.Memory, NewStatus .Success ""))
      ∧ (cs.scoreMode = mostMode → cs.Score pod nodeName
        = (GoInt64.sub info.Allocatable.Memory info.Requested.Memory, NewStatus .Success "")) := by
  unfold CustomScheduler.Score
  simp only [h]
  refine ⟨fun hm => ?_, fun hm => ?_⟩
  · rw [if_pos hm, GoInt64.neg_sub]
  · have hne : ¬ cs.scoreMode = leastMode := by rw [hm]; decide
    rw [if_neg hne]

/-- C4, example: allocatable 1000 and requested 400 score 600 under `Most`
and -600 under `Least`. -/
theorem Score_formula_witness :
    (((pluginOver mostMode [] [("n1", nodeWith 1000 400)]).Score
        (gangPod "p1" "g1" "1") "n1").1.val = 600
      ∧ ((pluginOver mostMode [] [("n1", nodeWith 1000 400)]).Score
        (gangPod "p1" "g1" "1") "n1").2 = NewStatus .Success "")
      ∧ (((pluginOver leastMode [] [("n1", nodeWith 1000 400)]).Score
        (gangPod "p1" "g1" "1") "n1").1.val = -600
      ∧ ((pluginOver leastMode [] [("n1", nodeWith 1000 400)]).Score
        (gangPod "p1" "g1" "1") "n1").2 = NewStatus .Success "") := by
  refine ⟨?_, ?_⟩
  · rw [(Score_formula (pluginOver mostMode [] [("n1", nodeWith 1000 400)])
      (gangPod "p1" "g1" "1") "n1" (nodeWith 1000 400) (by rfl)).2 rfl]
    exact ⟨by decide, rfl⟩
  · rw [(Score_formula (pluginOver leastMode [] [("n1", nodeWith 1000 400)])
      (gangPod "p1" "g1" "1") "n1" (nodeWith 1000 400) (by rfl)).1 rfl]
    exact ⟨by decide, rfl⟩

/-! ## Construction (`New`) -/

/-- C8, as stated, fails: on the payload `{"mode":"Least","mode":5}`
`json.Unmarshal` returns an error (a number cannot be stored in the string
field) after having stored `Least`, and `New`, which only prints that
error, returns a plugin in mode `Least`. -/
theorem New_accepts_failed_unmarshal :
    (jsonUnmarshal duplicateModePayload.Raw { Mode := "" }).2
        = some "json: cannot unmarshal number into Go struct field CustomSchedulerArgs.mode of type string"
      ∧ (jsonUnmarshal duplicateModePayload.Raw { Mode := "" }).1.Mode = leastMode
      ∧ builtMode (New (some duplicateModePayload) (storeHandle [] [])) = some leastMode := by
  decide

/-- C8, amended. For a non-nil payload `New` returns a plugin exactly when
the mode the payload asks for (the last string stored under a `mode` key,
letter case of the key ignored, of its top-level object) is `Least` or
`Most`, and the plugin then has that mode; in every other case it returns
the error `invalid mode` and no plugin. So a text that is not JSON and a
top-level value that is not an object (the bare string `"Least"` too) are
rejected. `json.Unmarshal` fails exactly on a malformed payload, and that
failure alone does not reject: only the mode asked for decides. -/
theorem New_validates_payload_mode (args : Unknown) (h : Handle) :
    New (some args) h
        = (if payloadMode args.Raw = leastMode ∨ payloadMode args.Raw = mostMode
            then Except.ok { handle := h, scoreMode := payloadMode args.Raw }
            else Except.error ("invalid mode, got " ++ payloadMode args.Raw))
      ∧ ((∀ members, args.Raw ≠ some (.obj members)) →
          New (some args) h = .error "invalid mode, got ")
      ∧ (jsonUnmarshal args.Raw { Mode := "" }).2.isSome = malformed args.Raw := by
  have hnew : New (some args) h
      = (if payloadMode args.Raw = leastMode ∨ payloadMode args.Raw = mostMode
          then Except.ok { handle := h, scoreMode := payloadMode args.Raw }
          else Except.error ("invalid mode, got " ++ payloadMode args.Raw)) := by
    simp only [New, jsonUnmarshal_mode]
    by_cases hm : payloadMode args.Raw = leastMode ∨ payloadMode args.Raw = mostMode
    · have hc : ¬ (payloadMode args.Raw ≠ leastMode ∧ payloadMode args.Raw ≠ mostMode) := by
        tauto
      rw [if_neg hc, if_pos hm]
    · have hc : payloadMode args.Raw ≠ leastMode ∧ payloadMode args.Raw ≠ mostMode := by
        tauto
      rw [if_pos hc, if_neg hm]
  refine ⟨hnew, ?_, jsonUnmarshal_error args.Raw⟩
  intro hobj
  have hp : payloadMode args.Raw = "" := by
    cases hr : args.Raw with
    | none => rfl
    | some v =>
      cases v with
      | obj members => exact absurd hr (hobj members)
      | _ => rfl
  rw [hnew, hp]
  rfl

/-- C8, amended, instances: `{"mode":"Most"}` and `{"MODE":"Least"}` build
plugins in modes `Most` and `Least`; `{"mode":5,"mode":"Most"}` is malformed
and still builds a plugin in mode `Most`; `{"mode":"most"}`, the bare string
`"Least"` and a text that is not JSON are rejected. -/
theorem New_validates_payload_mode_witness :
    builtMode (New (some { Raw := some (.obj [("mode", .str "Most")]) }) (storeHandle [] []))
        = some "Most"
      ∧ builtMode (New (some { Raw := some (.obj [("MODE", .str "Least")]) }) (storeHandle [] []))
        = some "Least"
      ∧ (malformed (some (.obj [("mode", .number "5"), ("mode", .str "Most")])) = true
        ∧ builtMode (New (some { Raw := some (.obj [("mode", .number "5"), ("mode", .str "Most")]) })
          (storeHandle [] [])) = some "Most")
      ∧ New (some { Raw := some (.obj [("mode", .str "most")]) }) (storeHandle [] [])
        = .error "invalid mode, got most"
      ∧ New (some { Raw := some (.str "Least") }) (storeHandle [] [])
        = .error "invalid mode, got "
      ∧ New (some { Raw := none }) (storeHandle [] []) = .error "invalid mode, got " := by
  refine ⟨?_, ?_, ⟨by decide, ?_⟩, ?_, ?_, ?_⟩
  · rw [(New_validates_payload_mode { Raw := some (.obj [("mode", .str "Most")]) }
      (storeHandle [] [])).1]
    decide
  · rw [(New_validates_payload_mode { Raw := some (.obj [("MODE", .str "Least")]) }
      (storeHandle [] [])).1]
    decide
  · rw [(New_validates_payload_mode
      { Raw := some (.obj [("mode", .number "5"), ("mode", .str "Most")]) }
      (storeHandle [] [])).1]
    decide
  · rw [(New_validates_payload_mode { Raw := some (.obj [("mode", .str "most")]) }
      (storeHandle [] [])).1]
    rfl
  · exact (New_validates_payload_mode { Raw := some (.str "Least") } (storeHandle [] [])).2.1
      (fun members hm => by cases hm)
  · exact (New_validates_payload_mode { Raw := none } (storeHandle [] [])).2.1
      (fun members hm => by cases hm)

/-! ## Score normaliser (`NormalizeScore`) -/

/-- C3. For a score list whose minimum raw score `lo` on entry differs
from its maximum raw score `hi` on entry, `NormalizeScore` succeeds and
replaces each score `s` by
`MinNodeScore + (s - lo) * (MaxNodeScore - MinNodeScore) / (hi - lo)`,
computed with Go's `int64` operators: the product first, then the truncated
quotient. `lo` and `hi` are those of the whole list on entry, and each `s`
is the entry's own raw score. When `(hi - lo) * (MaxNodeScore - MinNodeScore)`
fits `int64`, that value is the same expression over the integers. -/
theorem NormalizeScore_rescale_formula (cs : CustomScheduler) (pod : Pod)
    (scores : NodeScoreList) (lo hi : GoInt64)
    (hlo : IsMinScore scores lo) (hhi : IsMaxScore scores hi) (hne : lo ≠ hi) :
    cs.NormalizeScore pod scores
        = some (scores.map (fun e =>
            NodeScore.mk e.Name
              (GoInt64.add MinNodeScore
                (GoInt64.ofInt (Int.tdiv
                  (GoInt64.mul (GoInt64.sub e.Score lo)
                    (GoInt64.sub MaxNodeScore MinNodeScore)).val
                  (GoInt64.sub hi lo).val)))),
            NewStatus .Success "")
      ∧ (InInt64 ((hi.val - lo.val) * (MaxNodeScore.val - MinNodeScore.val)) →
          ∀ e ∈ scores,
            (GoInt64.add MinNodeScore
                (GoInt64.ofInt (Int.tdiv
                  (GoInt64.mul (GoInt64.sub e.Score lo)
                    (GoInt64.sub MaxNodeScore MinNodeScore)).val
                  (GoInt64.sub hi lo).val))).val
              = MinNodeScore.val
                + Int.tdiv ((e.Score.val - lo.val) * (MaxNodeScore.val - MinNodeScore.val))
                    (hi.val - lo.val)) := by
  refine ⟨?_, ?_⟩
  · unfold CustomScheduler.NormalizeScore
    rw [NormalizeScoreWith_rescale MinNodeScore MaxNodeScore scores lo hi hlo hhi hne]
    rfl
  · have hM : MaxNodeScore.val - MinNodeScore.val = 100 := by decide
    have hmin : MinNodeScore.val = 0 := by decide
    rw [hM]
    intro hno e he
    have h := (rescaleVal_noOverflow lo hi e.Score (hlo.2 e he) (hhi.2 e he) hne hno).1
    unfold rescaleVal at h
    rw [h, hmin, Int.zero_add]

/-- C3, example: raw scores 200, 800, 505 have `lo = 200`, `hi = 800` and
become 0, 100 and 50 (`305 * 100 / 600` truncated). -/
theorem NormalizeScore_rescale_formula_witness :
    scoreValues ((pluginOver mostMode [] []).NormalizeScore (gangPod "p1" "g1" "1") threeNodes)
      = some [0, 100, 50] := by
  rw [(NormalizeScore_rescale_formula (pluginOver mostMode [] []) (gangPod "p1" "g1" "1")
    threeNodes (GoInt64.ofInt 200) (GoInt64.ofInt 800)
    ⟨⟨entry "a" 200, by decide, rfl⟩, by decide⟩
    ⟨⟨entry "b" 800, by decide, rfl⟩, by decide⟩ (by decide)).1]
  decide

/-- C9. For a non-empty score list whose raw scores are all equal,
`NormalizeScore` succeeds and sets every score to 0, for every value of the
two bounds `MinNodeScore` and `MaxNodeScore`, the framework's included. -/
theorem NormalizeScore_degenerate (cs : CustomScheduler) (pod : Pod)
    (minNode maxNode : GoInt64) (scores : NodeScoreList) (c : GoInt64)
    (hne : scores ≠ []) (hall : ∀ e ∈ scores, e.Score = c) :
    NormalizeScoreWith minNode maxNode scores
        = some (scores.map (fun e => { e with Score := GoInt64.ofInt 0 }), NewStatus .Success "")
      ∧ cs.NormalizeScore pod scores
        = some (scores.map (fun e => { e with Score := GoInt64.ofInt 0 }),
            NewStatus .Success "") := by
  obtain ⟨first, hfirst⟩ := List.exists_mem_of_ne_nil scores hne
  have hlo : IsMinScore scores c :=
    ⟨⟨first, hfirst, hall first hfirst⟩, fun e he => by rw [hall e he]⟩
  have hhi : IsMaxScore scores c :=
    ⟨⟨first, hfirst, hall first hfirst⟩, fun e he => by rw [hall e he]⟩
  exact ⟨NormalizeScoreWith_degenerate minNode maxNode scores c hlo hhi,
    NormalizeScoreWith_degenerate MinNodeScore MaxNodeScore scores c hlo hhi⟩

/-- C9, example: raw scores 5, 5, 5 become 0, 0, 0, also with the bounds
10 and 20 in place of the framework's 0 and 100. -/
theorem NormalizeScore_degenerate_witness :
    scoreValues (NormalizeScoreWith (GoInt64.ofInt 10) (GoInt64.ofInt 20)
        [entry "a" 5, entry "b" 5, entry "c" 5]) = some [0, 0, 0]
      ∧ statusCode ((pluginOver leastMode [] []).NormalizeScore (gangPod "p1" "g1" "1")
        [entry "a" 5, entry "b" 5, entry "c" 5]) = some .Success := by
  have h := NormalizeScore_degenerate (pluginOver leastMode [] []) (gangPod "p1" "g1" "1")
    (GoInt64.ofInt 10) (GoInt64.ofInt 20) [entry "a" 5, entry "b" 5, entry "c" 5]
    (GoInt64.ofInt 5) (by decide) (by decide)
  rw [h.1, h.2]
  decide

/-- C2, failing input: raw scores 0 and 2^61. The product `2^61 * 100`
overflows `int64` to `-2^63`, so the second entry is normalised to -4, below
`MinNodeScore`. -/
theorem NormalizeScore_range_overflow :
    scoreValues ((pluginOver mostMode [] []).NormalizeScore (gangPod "p1" "g1" "1")
        [entry "a" 0, entry "b" 2305843009213693952]) = some [0, -4]
      ∧ ¬ (MinNodeScore.val ≤ -4) := by
  decide

/-- C5, failing input: raw scores -2^61, 0 and -1. The entries -1 < 0 are
normalised to 3 and -4: the larger raw score gets the smaller normalised
score, the product for it having overflowed. -/
theorem NormalizeScore_monotone_overflow :
    scoreValues ((pluginOver leastMode [] []).NormalizeScore (gangPod "p1" "g1" "1")
        [entry "a" (-2305843009213693952), entry "b" 0, entry "c" (-1)]) = some [0, -4, 3]
      ∧ (entry "c" (-1)).Score.val < (entry "b" 0).Score.val := by
  decide

/-- C10, failing input: raw scores 0 and 2^57. The entry holding the
maximum is normalised to -28 instead of `MaxNodeScore`, the product
`2^57 * 100` having overflowed; the entry holding the minimum gets 0. -/
theorem NormalizeScore_endpoint_overflow :
    scoreValues ((pluginOver mostMode [] []).NormalizeScore (gangPod "p1" "g1" "1")
        [entry "a" 0, entry "b" 144115188075855872]) = some [0, -28]
      ∧ MaxNodeScore.val = 100 := by
  decide

/-! ## Further lemmas on `NormalizeScore` -/

/-- On a non-empty list `NormalizeScore` never panics: it succeeds and
rewrites only the `Score` fields, each from the entry's own raw score. -/
theorem NormalizeScoreWith_map (minNode maxNode : GoInt64) (scores : NodeScoreList)
    (hne : scores ≠ []) :
    ∃ g : GoInt64 → GoInt64,
      NormalizeScoreWith minNode maxNode scores
        = some (scores.map (fun e => NodeScore.mk e.Name (g e.Score)), NewStatus .Success "") := by
  cases scores with
  | nil => exact absurd rfl hne
  | cons first rest =>
    have hlo := scan_isMin first rest
    have hhi := scan_isMax first rest
    by_cases heq : ((first :: rest).foldl scanStep (first.Score, first.Score)).1
        = ((first :: rest).foldl scanStep (first.Score, first.Score)).2
    · rw [← heq] at hhi
      exact ⟨fun _ => 0, NormalizeScoreWith_degenerate minNode maxNode _ _ hlo hhi⟩
    · exact ⟨_, NormalizeScoreWith_rescale minNode maxNode _ _ _ hlo hhi heq⟩

/-- A list whose scores are all 0 is left as it is. -/
theorem NormalizeScoreWith_zero_fixed (out : NodeScoreList) (hne : out ≠ [])
    (hz : ∀ e ∈ out, e.Score = GoInt64.ofInt 0) :
    NormalizeScoreWith MinNodeScore MaxNodeScore out = some (out, NewStatus .Success "") := by
  obtain ⟨first, hfirst⟩ := List.exists_mem_of_ne_nil out hne
  have hlo : IsMinScore out (GoInt64.ofInt 0) :=
    ⟨⟨first, hfirst, hz first hfirst⟩, fun e he => by rw [hz e he]⟩
  have hhi : IsMaxScore out (GoInt64.ofInt 0) :=
    ⟨⟨first, hfirst, hz first hfirst⟩, fun e he => by rw [hz e he]⟩
  rw [NormalizeScoreWith_degenerate MinNodeScore MaxNodeScore out _ hlo hhi]
  have hid : out.map (fun e => ({ e with Score := 0 } : NodeScore)) = out := by
    conv_rhs => rw [← List.map_id out]
    apply List.map_congr_left
    intro e he
    have h0 := hz e he
    cases e with
    | mk n s => simp only [id]; simp only at h0; rw [h0]; rfl
  rw [hid]

/-- A list whose minimum score is 0 and whose maximum score is 100 is left
as it is. -/
theorem NormalizeScoreWith_unit_fixed (out : NodeScoreList)
    (hlo : IsMinScore out (GoInt64.ofInt 0)) (hhi : IsMaxScore out (GoInt64.ofInt 100)) :
    NormalizeScoreWith MinNodeScore MaxNodeScore out = some (out, NewStatus .Success "") := by
  have hne : GoInt64.ofInt 0 ≠ GoInt64.ofInt 100 := by decide
  have h0 : (GoInt64.ofInt 0).val = 0 := by decide
  have h100 : (GoInt64.ofInt 100).val = 100 := by decide
  rw [NormalizeScoreWith_rescale MinNodeScore MaxNodeScore out _ _ hlo hhi hne]
  have hid : out.map (fun e => NodeScore.mk e.Name
      (rescaleVal MinNodeScore MaxNodeScore (GoInt64.ofInt 0) (GoInt64.ofInt 100) e.Score))
      = out := by
    conv_rhs => rw [← List.map_id out]
    apply List.map_congr_left
    intro e he
    have hl := hlo.2 e he
    have hh := hhi.2 e he
    obtain ⟨h1, h2, _, _⟩ := rescaleVal_noOverflow (GoInt64.ofInt 0) (GoInt64.ofInt 100)
      e.Score hl hh hne (by rw [h0, h100]; decide)
    have hv : (rescaleVal MinNodeScore MaxNodeScore (GoInt64.ofInt 0) (GoInt64.ofInt 100)
        e.Score).val = e.Score.val := by
      rw [h1, h2, h0, h100]
      omega
    cases e with
    | mk n s => simp only [id]; congr 1; exact Subtype.ext hv
  rw [hid]

/-- Negation reverses strict order of `int64` values, the smaller one not
being `MinInt64`. -/
theorem GoInt64.neg_lt_neg {a b : GoInt64} (hab : a.val < b.val)
    (hmin : a.val ≠ -9223372036854775808) : (GoInt64.neg b).val < (GoInt64.neg a).val := by
  have ha := a.property
  have hb := b.property
  unfold InInt64 at ha hb
  simp only [GoInt64.neg, GoInt64.ofInt, wrap64]
  omega

/-- Negating `MinInt64` wraps to `MinInt64`. -/
theorem GoInt64.neg_minInt64 :
    (GoInt64.neg (GoInt64.ofInt (-9223372036854775808))).val = -9223372036854775808 := by
  decide

/-! ## Claims on `NormalizeScore`, continued -/

/-- C11. For every score list, `NormalizeScore` returns (it does not panic)
with a list of the same length whose node names are, index by index, those
on entry: only `Score` fields change. -/
theorem NormalizeScore_shape (cs : CustomScheduler) (pod : Pod) (scores : NodeScoreList) :
    ∃ out st, cs.NormalizeScore pod scores = some (out, st)
      ∧ out.length = scores.length
      ∧ out.map NodeScore.Name = scores.map NodeScore.Name := by
  unfold CustomScheduler.NormalizeScore
  by_cases hne : scores = []
  · subst hne
    exact ⟨[], _, rfl, rfl, rfl⟩
  · obtain ⟨g, hg⟩ := NormalizeScoreWith_map MinNodeScore MaxNodeScore scores hne
    refine ⟨_, _, hg, by simp, ?_⟩
    rw [List.map_map]
    rfl

/-- C12. On an empty score list `NormalizeScore` returns status `Error`
and the list is still empty: nothing is written. -/
theorem NormalizeScore_empty (cs : CustomScheduler) (pod : Pod) :
    cs.NormalizeScore pod [] = some ([], NewStatus .Error "no scores to normalize")
      ∧ (NewStatus .Error "no scores to normalize").code = .Error :=
  ⟨rfl, rfl⟩

/-- C18. For a non-empty score list with minimum `lo` and maximum `hi`
such that `(hi - lo) * 100` fits `int64`, `NormalizeScore` succeeds with a
list `out`, and `NormalizeScore` on `out` succeeds and leaves `out`
unchanged. -/
theorem NormalizeScore_idempotent (cs : CustomScheduler) (pod : Pod)
    (scores : NodeScoreList) (lo hi : GoInt64)
    (hlo : IsMinScore scores lo) (hhi : IsMaxScore scores hi)
    (hno : InInt64 ((hi.val - lo.val) * 100)) :
    ∃ out, cs.NormalizeScore pod scores = some (out, NewStatus .Success "")
      ∧ cs.NormalizeScore pod out = some (out, NewStatus .Success "") := by
  unfold CustomScheduler.NormalizeScore
  obtain ⟨elo, helo, hselo⟩ := hlo.1
  obtain ⟨ehi, hehi, hsehi⟩ := hhi.1
  by_cases heq : lo = hi
  · subst heq
    refine ⟨_, NormalizeScoreWith_degenerate MinNodeScore MaxNodeScore scores lo hlo hhi, ?_⟩
    apply NormalizeScoreWith_zero_fixed
    · intro hnil
      have := List.map_eq_nil_iff.mp hnil
      rw [this] at helo
      cases helo
    · intro e he
      obtain ⟨e0, _, rfl⟩ := List.mem_map.mp he
      rfl
  · refine ⟨_, NormalizeScoreWith_rescale MinNodeScore MaxNodeScore scores lo hi hlo hhi heq, ?_⟩
    have hle : lo.val ≤ hi.val := by rw [← hsehi]; exact hlo.2 ehi hehi
    have h0 : (GoInt64.ofInt 0).val = 0 := by decide
    have h100 : (GoInt64.ofInt 100).val = 100 := by decide
    apply NormalizeScoreWith_unit_fixed
    · refine ⟨⟨_, List.mem_map.mpr ⟨elo, helo, rfl⟩, ?_⟩, ?_⟩
      · apply Subtype.ext
        show (rescaleVal MinNodeScore MaxNodeScore lo hi elo.Score).val = (GoInt64.ofInt 0).val
        rw [hselo, rescaleVal_min, h0]
      · intro e he
        obtain ⟨e0, he0, rfl⟩ := List.mem_map.mp he
        obtain ⟨h1, h2, h3, _⟩ :=
          rescaleVal_noOverflow lo hi e0.Score (hlo.2 e0 he0) (hhi.2 e0 he0) heq hno
        show (GoInt64.ofInt 0).val ≤ (rescaleVal MinNodeScore MaxNodeScore lo hi e0.Score).val
        rw [h0, h1, h2]
        exact h3
    · refine ⟨⟨_, List.mem_map.mpr ⟨ehi, hehi, rfl⟩, ?_⟩, ?_⟩
      · apply Subtype.ext
        show (rescaleVal MinNodeScore MaxNodeScore lo hi ehi.Score).val = (GoInt64.ofInt 100).val
        rw [hsehi, rescaleVal_max_noOverflow lo hi hle heq hno, h100]
      · intro e he
        obtain ⟨e0, he0, rfl⟩ := List.mem_map.mp he
        obtain ⟨h1, h2, _, h4⟩ :=
          rescaleVal_noOverflow lo hi e0.Score (hlo.2 e0 he0) (hhi.2 e0 he0) heq hno
        show (rescaleVal MinNodeScore MaxNodeScore lo hi e0.Score).val ≤ (GoInt64.ofInt 100).val
        rw [h100, h1, h2]
        exact h4

/-- C18, example: raw scores 200, 800, 505 are normalised to 0, 100, 50,
and normalising 0, 100, 50 gives 0, 100, 50 again. -/
theorem NormalizeScore_idempotent_witness :
    ∃ out, scoreValues ((pluginOver mostMode [] []).NormalizeScore (gangPod "p1" "g1" "1")
          threeNodes) = some (out.map fun e => e.Score.val)
      ∧ (pluginOver mostMode [] []).NormalizeScore (gangPod "p1" "g1" "1") out
          = some (out, NewStatus .Success "") := by
  obtain ⟨out, h1, h2⟩ := NormalizeScore_idempotent (pluginOver mostMode [] [])
    (gangPod "p1" "g1" "1") threeNodes (GoInt64.ofInt 200) (GoInt64.ofInt 800)
    ⟨⟨entry "a" 200, by decide, rfl⟩, by decide⟩
    ⟨⟨entry "b" 800, by decide, rfl⟩, by decide⟩ (by decide)
  exact ⟨out, by rw [h1]; rfl, h2⟩

/-! ## Claims on `Score`, continued -/

/-- C13. For a node name whose snapshot lookup returns an error, `Score`
returns raw score 0 and status `Error` carrying that error, whatever the
mode of the instance. -/
theorem Score_unresolved_node (cs : CustomScheduler) (pod : Pod) (nodeName err : String)
    (h : cs.handle.getNodeInfo nodeName = .error err) :
    cs.Score pod nodeName = (GoInt64.ofInt 0, NewStatus .Error err)
      ∧ (cs.Score pod nodeName).1.val = 0
      ∧ (cs.Score pod nodeName).2.code = .Error := by
  have hs : cs.Score pod nodeName = (GoInt64.ofInt 0, NewStatus .Error err) := by
    unfold CustomScheduler.Score
    simp only [h]
    rfl
  rw [hs]
  exact ⟨rfl, (by decide : (GoInt64.ofInt 0).val = 0), rfl⟩

/-- C13, instances: a node absent from the snapshot scores 0 with `Error`
in mode `Least` and in mode `Most`. -/
theorem Score_unresolved_node_witness :
    (pluginOver leastMode [] [("n1", nodeWith 1000 400)]).Score (gangPod "p1" "g1" "1") "n2"
        = (GoInt64.ofInt 0, NewStatus .Error "nodeinfo not found for node name n2")
      ∧ (pluginOver mostMode [] [("n1", nodeWith 1000 400)]).Score (gangPod "p1" "g1" "1") "n2"
        = (GoInt64.ofInt 0, NewStatus .Error "nodeinfo not found for node name n2") :=
  ⟨(Score_unresolved_node (pluginOver leastMode [] [("n1", nodeWith 1000 400)])
      (gangPod "p1" "g1" "1") "n2" "nodeinfo not found for node name n2" (by rfl)).1,
   (Score_unresolved_node (pluginOver mostMode [] [("n1", nodeWith 1000 400)])
      (gangPod "p1" "g1" "1") "n2" "nodeinfo not found for node name n2" (by rfl)).1⟩

/-- C16, failing input: mode `Least`, node `n1` with headroom 0 and node
`n2` with headroom 2^61. `Score` gives 0 and -2^61, the smaller headroom
scoring strictly higher, but `NormalizeScore` rewrites them to -4 and 0:
the node with the smaller headroom ends below the other, the product
`2^61 * 100` having overflowed. -/
theorem Least_ranking_overflow :
    ((pluginOver leastMode [] wideNodes).Score (gangPod "p1" "g1" "1") "n1").1.val = 0
      ∧ ((pluginOver leastMode [] wideNodes).Score (gangPod "p1" "g1" "1") "n2").1.val
        = -2305843009213693952
      ∧ scoreValues ((pluginOver leastMode [] wideNodes).NormalizeScore (gangPod "p1" "g1" "1")
          [{ Name := "n1",
             Score := ((pluginOver leastMode [] wideNodes).Score (gangPod "p1" "g1" "1") "n1").1 },
           { Name := "n2",
             Score := ((pluginOver leastMode [] wideNodes).Score (gangPod "p1" "g1" "1") "n2").1 }])
        = some [-4, 0] := by
  decide

/-! ## Claims on `New`, continued -/

/-- C14. Called with a nil object, `New` succeeds and the returned
instance has scoring mode `Least`. -/
theorem New_default_mode (h : Handle) :
    New none h = .ok { handle := h, scoreMode := leastMode }
      ∧ builtMode (New none h) = some "Least" :=
  ⟨rfl, rfl⟩

/-- C17. Every instance returned by `New`, and every instance reached
from it by calls of `Name`, `PreFilter`, `PreFilterExtensions`, `Score`,
`NormalizeScore` and `ScoreExtensions`, has `scoreMode` equal to `Least` or
`Most`; no call changes `scoreMode`; so the else-branch of `Score` (taken
when the mode is not `Least`) is taken exactly when the mode is `Most`, and
`Score` on a resolved node returns the headroom under `Most` and its
negation otherwise. -/
theorem scoreMode_invariant (cs : CustomScheduler) (hr : Reachable cs) :
    (cs.scoreMode = leastMode ∨ cs.scoreMode = mostMode)
      ∧ (∀ c : Call, (cs.step c).1.scoreMode = cs.scoreMode)
      ∧ (¬ cs.scoreMode = leastMode ↔ cs.scoreMode = mostMode)
      ∧ (∀ (pod : Pod) (nodeName : String) (info : NodeInfo),
          cs.handle.getNodeInfo nodeName = .ok info →
          (cs.Score pod nodeName).1
            = if cs.scoreMode = mostMode
              then GoInt64.sub info.Allocatable.Memory info.Requested.Memory
              else GoInt64.neg (GoInt64.sub info.Allocatable.Memory info.Requested.Memory)) := by
  have hstep : ∀ (x : CustomScheduler) (c : Call), (x.step c).1 = x := by
    intro x c
    cases c <;> rfl
  have hmode : cs.scoreMode = leastMode ∨ cs.scoreMode = mostMode := by
    induction hr with
    | new obj h cs hnew =>
      cases obj with
      | none =>
        simp only [New, Except.ok.injEq] at hnew
        subst hnew
        exact Or.inl rfl
      | some args =>
        simp only [New] at hnew
        split at hnew
        · cases hnew
        · rename_i hc
          simp only [Except.ok.injEq] at hnew
          subst hnew
          by_cases h1 : (jsonUnmarshal args.Raw { Mode := "" }).1.Mode = leastMode
          · exact Or.inl h1
          · by_cases h2 : (jsonUnmarshal args.Raw { Mode := "" }).1.Mode = mostMode
            · exact Or.inr h2
            · exact absurd ⟨h1, h2⟩ hc
    | step x c _ ih => rw [hstep]; exact ih
  have hne : leastMode ≠ mostMode := by decide
  have hiff : ¬ cs.scoreMode = leastMode ↔ cs.scoreMode = mostMode := by
    constructor
    · intro hn
      rcases hmode with h | h
      · exact absurd h hn
      · exact h
    · intro hm hl
      exact hne (hl.symm.trans hm)
  refine ⟨hmode, fun c => by rw [hstep], hiff, ?_⟩
  intro pod nodeName info hinfo
  unfold CustomScheduler.Score
  simp only [hinfo]
  by_cases hl : cs.scoreMode = leastMode
  · have hm : ¬ cs.scoreMode = mostMode := fun hm => hiff.mpr hm hl
    rw [if_pos hl, if_neg hm]
  · have hm : cs.scoreMode = mostMode := hiff.mp hl
    rw [if_neg hl, if_pos hm]

/-- C17, instance: the plugin built from `{"mode":"Most"}`, after a
`PreFilter` and a `Score` call, still has mode `Most`, and scores a node
with allocatable 1000 and requested 400 at 600. -/
theorem scoreMode_invariant_witness :
    ((pluginOver mostMode [] [("n1", nodeWith 1000 400)]).scoreMode = leastMode
        ∨ (pluginOver mostMode [] [("n1", nodeWith 1000 400)]).scoreMode = mostMode)
      ∧ ((((pluginOver mostMode [] [("n1", nodeWith 1000 400)]).step
          (.PreFilter (gangPod "p1" "g1" "1"))).1.step
            (.Score (gangPod "p1" "g1" "1") "n1")).1.scoreMode = mostMode) := by
  have hnew : Reachable (pluginOver mostMode [] [("n1", nodeWith 1000 400)]) :=
    Reachable.new (some { Raw := some (.obj [("mode", .str "Most")]) })
      (storeHandle [] [("n1", nodeWith 1000 400)]) _ rfl
  refine ⟨(scoreMode_invariant _ hnew).1, ?_⟩
  rw [(scoreMode_invariant _ (Reachable.step _ (.PreFilter (gangPod "p1" "g1" "1")) hnew)).2.1,
    (scoreMode_invariant _ hnew).2.1]
  rfl

/-! ## Claims on `PreFilter`, continued -/

/-- C15, as stated, fails: a pod without a `podGroup` label and with
`minAvailable` 0 is admitted (`Success`), and one with `minAvailable` 1 and
no visible pod is `Unschedulable`; neither is an `Error`. -/
theorem PreFilter_missing_group_not_error :
    (ungroupedPod "p1" "0").Labels.lookup groupNameLabel = none
      ∧ (pluginOver leastMode [ungroupedPod "p1" "0"] []).PreFilter (ungroupedPod "p1" "0")
        = (none, NewStatus .Success "")
      ∧ (pluginOver leastMode [ungroupedPod "p1" "1"] []).PreFilter (ungroupedPod "p1" "1")
        = (some { NodeNames := [] }, NewStatus .Unschedulable "") := by
  decide

/-- C15, amended. For a pod without a `podGroup` label `PreFilter` reads
the label as the empty string and lists the pods selected by
`podGroup = ""`; it reports `Error` exactly when `strconv.Atoi` rejects the
`minAvailable` label, and otherwise admits exactly when the number of
listed pods reaches the threshold. -/
theorem PreFilter_missing_group (cs : CustomScheduler) (pod : Pod)
    (hg : pod.Labels.lookup groupNameLabel = none) :
    ((cs.PreFilter pod).2.code = .Error ↔ Atoi (pod.Labels.get minAvailableLabel) = none)
      ∧ (∀ t : Int, Atoi (pod.Labels.get minAvailableLabel) = some t →
          cs.PreFilter pod
            = if ((cs.handle.listPods (SelectorFromSet [(groupNameLabel, "")])).1.length : Int) ≥ t
              then (none, NewStatus .Success "")
              else (some { NodeNames := [] }, NewStatus .Unschedulable "")) := by
  have hget : pod.Labels.get groupNameLabel = "" := by
    simp only [StringMap.get, hg, Option.getD_none]
  unfold CustomScheduler.PreFilter
  rw [hget]
  cases hA : Atoi (pod.Labels.get minAvailableLabel) with
  | none => simp [NewStatus]
  | some t =>
    refine ⟨?_, ?_⟩
    · simp only [reduceCtorEq, iff_false]
      split <;> simp [NewStatus]
    · intro t' ht'
      have htt : t = t' := Option.some.inj ht'
      subst htt
      rfl

/-- C15, amended, instances: without a group label, threshold 0 is
admitted, and a missing threshold is the `Error`. -/
theorem PreFilter_missing_group_witness :
    (pluginOver leastMode [] []).PreFilter (ungroupedPod "p1" "0")
        = (none, NewStatus .Success "")
      ∧ ((pluginOver leastMode [] []).PreFilter { Name := "p2", Labels := [] }).2.code
        = .Error :=
  ⟨by
      rw [(PreFilter_missing_group (pluginOver leastMode [] []) (ungroupedPod "p1" "0")
        (by decide)).2 0 (by decide)]
      rfl,
   (PreFilter_missing_group (pluginOver leastMode [] []) { Name := "p2", Labels := [] }
      (by decide)).1.2 (by decide)⟩

/-- C19. `PreFilter` discards the lister's error: two instances whose
listers return lists of equal length, with or without an error, give the
same verdict for pods with the same `minAvailable` label; and when the
lister fails with no pods and the threshold parses to `t`, the status is
not `Error` and the pod is admitted exactly when `t <= 0`. -/
theorem PreFilter_ignores_lister_error (cs cs2 : CustomScheduler) (pod pod2 : Pod)
    (hlabel : pod.Labels.get minAvailableLabel = pod2.Labels.get minAvailableLabel)
    (hlen : (cs.handle.listPods
        (SelectorFromSet [(groupNameLabel, pod.Labels.get groupNameLabel)])).1.length
      = (cs2.handle.listPods
        (SelectorFromSet [(groupNameLabel, pod2.Labels.get groupNameLabel)])).1.length) :
    cs.PreFilter pod = cs2.PreFilter pod2
      ∧ (∀ (err : String) (t : Int),
          cs.handle.listPods (SelectorFromSet [(groupNameLabel, pod.Labels.get groupNameLabel)])
            = ([], some err) →
          Atoi (pod.Labels.get minAvailableLabel) = some t →
          (cs.PreFilter pod).2.code ≠ .Error
            ∧ (cs.PreFilter pod = (none, NewStatus .Success "") ↔ t ≤ 0)) := by
  refine ⟨?_, ?_⟩
  · unfold CustomScheduler.PreFilter
    simp only [hlabel, hlen]
  · intro err t hl ht
    unfold CustomScheduler.PreFilter
    simp only [hl, ht, List.length_nil]
    by_cases h0 : t ≤ 0
    · have hc : ((0 : Nat) : Int) ≥ t := by omega
      simp [hc, h0, NewStatus]
    · have hc : ¬ ((0 : Nat) : Int) ≥ t := by omega
      simp [hc, h0, NewStatus]

/-- C19, instances: with a lister that fails and returns no pods,
threshold 0 is admitted and threshold 1 is `Unschedulable`; and the verdict
is that of an instance whose lister returns no pods without failing. -/
theorem PreFilter_ignores_lister_error_witness :
    ({ handle := failingListerHandle [] "informer cache not synced", scoreMode := leastMode }
        : CustomScheduler).PreFilter (gangPod "p1" "g1" "1")
      = (pluginOver leastMode [] []).PreFilter (gangPod "p1" "g1" "1")
      ∧ (({ handle := failingListerHandle [] "informer cache not synced", scoreMode := leastMode }
        : CustomScheduler).PreFilter (gangPod "p1" "g1" "0") = (none, NewStatus .Success "")) :=
  ⟨(PreFilter_ignores_lister_error
      { handle := failingListerHandle [] "informer cache not synced", scoreMode := leastMode }
      (pluginOver leastMode [] []) (gangPod "p1" "g1" "1") (gangPod "p1" "g1" "1")
      rfl (by decide)).1,
   ((PreFilter_ignores_lister_error
      { handle := failingListerHandle [] "informer cache not synced", scoreMode := leastMode }
      (pluginOver leastMode [] []) (gangPod "p1" "g1" "0") (gangPod "p1" "g1" "0")
      rfl (by decide)).2 "informer cache not synced" 0 rfl (by decide)).2.2 (by decide)⟩

end Plugins
